import Mathlib

/-!
Formal model of the `w_kinavg.py` kinetics-averaging tool and of
`src/wemd/states.py` from the westpa repository.

Conventions of the shallow embedding:

* Python integers are `ℕ` (all quantities involved are nonnegative);
  Python floats are `ℚ` (exact arithmetic stands in for IEEE doubles).
* The per-iteration labeled flux tensors and population arrays read from the
  HDF5 files are abstracted to one additive value per iteration
  (`fluxF popF : ℕ → ℚ`); the external collaborators
  `labeled_flux_to_rate` and `get_macrostate_rates` (imported from
  `westpa.kinetics`, not part of the sources under analysis) are abstracted
  to an abstract function `rateOf` applied to the averaged values.
* `random.randint(0, nblocks-1)` draws are modelled by an explicit draw
  function supplied as a parameter, so the resampling is deterministic.
* Fallible operations (python exceptions) are modelled with `Option`/`Except`.
-/

namespace WKinavg

/-- Model of `numpy.arange(a, b, s)` for nonnegative integer arguments:
the values `a, a+s, a+2s, ...` strictly below `b`. -/
def arange (a b s : ℕ) : List ℕ :=
  List.range' a ((b - a + s - 1) / s) s

/-- Model of `if stops[-1] > stop_iter: stops[-1] = stop_iter` in
`_calc_ci_block`: clamp the last element of the list down to `b`. -/
def clampLast (l : List ℕ) (b : ℕ) : List ℕ :=
  match l.getLast? with
  | Option.none => l
  | Option.some x => if b < x then l.set (l.length - 1) b else l

/-- Model of `starts = numpy.arange(start_iter, stop_iter, stride)` in `_calc_ci_block`. -/
def blockStarts (start stop stride : ℕ) : List ℕ := arange start stop stride

/-- Model of `stops = numpy.arange(start_iter+stride, stop_iter+stride, stride)` with the
final element clamped to `stop_iter`, as in `_calc_ci_block`. -/
def blockStops (start stop stride : ℕ) : List ℕ :=
  clampLast (arange (start + stride) (stop + stride) stride) stop

/-- Model of `nblocks = len(starts)` in `_calc_ci_block`. -/
def nblocks (start stop stride : ℕ) : ℕ := (blockStarts start stop stride).length

/-- The iterations `xrange(starts[i], stops[i])` making up block `i`. -/
def blockIters (start stop stride : ℕ) (i : ℕ) : List ℕ :=
  List.range' ((blockStarts start stop stride).getD i 0)
    ((blockStops start stop stride).getD i 0 - (blockStarts start stop stride).getD i 0)

/-- The multiset of iterations visited by one bootstrap resample of
`_calc_ci_block`: for each `_block in xrange(nblocks)` one block index
`iblock = draw _block` is drawn and all its iterations are accumulated. -/
def resampleIters (start stop stride : ℕ) (draw : ℕ → ℕ) : List ℕ :=
  (List.range (nblocks start stop stride)).flatMap
    (fun b => blockIters start stop stride (draw b))

/-- Model of `numpy.mean` of a list of rationals. -/
def listMean (l : List ℚ) : ℚ := l.sum / (l.length : ℚ)

/-- The average of `f` over the original, unresampled window
`xrange(start_iter, stop_iter)` (the accumulate-then-divide loop of
`_calc_ci_block`). -/
def windowMean (f : ℕ → ℚ) (start stop : ℕ) : ℚ :=
  listMean ((List.range' start (stop - start)).map f)

/-- Python/numpy sequence indexing with an integer index: negative indices
address from the end, out-of-range indices raise (modelled as `none`). -/
def pyIndex {α : Type} (l : List α) (i : ℤ) : Option α :=
  let j : ℤ := if i < 0 then i + (l.length : ℤ) else i
  if 0 ≤ j then l.get? j.toNat else Option.none

/-- Model of `lbi = int(math.floor(mcbs_nsets*mcbs_alpha/2.0))` in `_calc_ci_block`. -/
def lbiZ (nsets : ℕ) (alpha : ℚ) : ℤ := ⌊(nsets : ℚ) * alpha / 2⌋

/-- Model of `ubi = int(math.ceil(mcbs_nsets*(1-mcbs_alpha/2.0)))` in `_calc_ci_block`. -/
def ubiZ (nsets : ℕ) (alpha : ℚ) : ℤ := ⌈(nsets : ℚ) * (1 - alpha / 2)⌉

/-- The tuple `(start_iter, stop_iter, expected, ci_lbound, ci_ubound, corr_len)`
returned by `_calc_ci_block`. -/
structure CIResult where
  iter_start : ℕ
  iter_stop : ℕ
  expected : ℚ
  ci_lbound : ℚ
  ci_ubound : ℚ
  corr_len : ℕ
deriving DecidableEq

/-- One bootstrap synthetic rate of `_calc_ci_block`: the drawn blocks are
accumulated, divided by `iters_averaged`, and converted to a macrostate rate. -/
def synthRate (fluxF popF : ℕ → ℚ) (rateOf : ℚ → ℚ → ℚ)
    (start stop stride : ℕ) (draw : ℕ → ℕ) : ℚ :=
  let idxs := resampleIters start stop stride draw
  rateOf (listMean (idxs.map fluxF)) (listMean (idxs.map popF))

/-- The `mcbs_nsets` synthetic rates of `_calc_ci_block` (`synth_rates`). -/
def synthRates (fluxF popF : ℕ → ℚ) (rateOf : ℚ → ℚ → ℚ)
    (start stop stride nsets : ℕ) (draws : ℕ → ℕ → ℕ) : List ℚ :=
  (List.range nsets).map
    (fun iset => synthRate fluxF popF rateOf start stop stride (draws iset))

/-- Model of `synth_rates.sort()`: the resample statistics in ascending order, with
`stride = ctime + 1` as set by `_calc_ci_block`. -/
def sortedSynthRates (fluxF popF : ℕ → ℚ) (rateOf : ℚ → ℚ → ℚ)
    (start stop ctime nsets : ℕ) (draws : ℕ → ℕ → ℕ) : List ℚ :=
  List.insertionSort (· ≤ ·)
    (synthRates fluxF popF rateOf start stop (ctime + 1) nsets draws)

/-- Model of `_calc_ci_block` (w_kinavg.py): the overall window average gives
`expected`; `mcbs_nsets` block-bootstrap resamples give `synth_rates`, which
are sorted; the returned bounds are `synth_rates[lbi]` and `synth_rates[ubi]`.
An out-of-range index (python `IndexError`) yields `none`. -/
def calc_ci_block (fluxF popF : ℕ → ℚ) (rateOf : ℚ → ℚ → ℚ)
    (start stop ctime : ℕ) (alpha : ℚ) (nsets : ℕ) (draws : ℕ → ℕ → ℕ) :
    Option CIResult :=
  match pyIndex (sortedSynthRates fluxF popF rateOf start stop ctime nsets draws)
          (lbiZ nsets alpha),
        pyIndex (sortedSynthRates fluxF popF rateOf start stop ctime nsets draws)
          (ubiZ nsets alpha) with
  | Option.some lb, Option.some ub =>
      Option.some ⟨start, stop,
        rateOf (windowMean fluxF start stop) (windowMean popF start stop),
        lb, ub, ctime⟩
  | _, _ => Option.none

/-- Modelled from the spec: `mclib.get_bssize` (the module `mclib` is imported
by `w_kinavg.py` but its source is not available here); per the spec it widens
the bootstrap set count to the minimum needed to resolve the requested
quantile, `n_sets ≥ 2/alpha`, rounded up. -/
def get_bssize (alpha : ℚ) : ℕ := ⌈2 / alpha⌉₊

/-- Model of `self.mcbs_nsets = args.nsets if args.nsets else mclib.get_bssize(self.mcbs_alpha)`
in `KinAvgSubcommands.process_args` (a supplied value of `0` is falsy in
python and also falls back to the default). -/
def resolve_nsets (argNsets : Option ℕ) (alpha : ℚ) : ℕ :=
  match argNsets with
  | Option.some n => if n ≠ 0 then n else get_bssize alpha
  | Option.none => get_bssize alpha

/-! ### Window planner (`--evolution-mode`) -/

/-- The two evolution modes that actually produce windows
(`'none'` produces none and is handled by an early return). -/
inductive EvolutionMode
  | cumulative
  | blocked
deriving DecidableEq

/-- Model of `start_pts = range(start_iter, stop_iter, step_iter)`. -/
def startPts (start stop step : ℕ) : List ℕ :=
  List.range' start ((stop - start + step - 1) / step) step

/-- One window of the evolution loop of `AvgTraceSubcommand.go` /
`AvgMatrixSubcommand.go`, as `(block_start, stop)` for a given loop start
point `st`: `stop = min(start+step_iter, stop_iter)`; in cumulative mode
`windowsize = int(window_frac * (stop - start_iter))` and
`block_start = max(start_iter, stop - windowsize)`. -/
def windowOf (mode : EvolutionMode) (start stop step : ℕ) (frac : ℚ) (st : ℕ) :
    ℕ × ℕ :=
  let sp := min (st + step) stop
  match mode with
  | EvolutionMode.blocked => (st, sp)
  | EvolutionMode.cumulative =>
      let windowsize : ℕ := ⌊frac * ((sp - start : ℕ) : ℚ)⌋₊
      (max start (sp - windowsize), sp)

/-- All `(block_start, stop)` windows produced by the evolution loop. -/
def evolWindows (mode : EvolutionMode) (start stop step : ℕ) (frac : ℚ) :
    List (ℕ × ℕ) :=
  (startPts start stop step).map (windowOf mode start stop step frac)

/-! ### Result aggregation (`as_completed` consumption loops) -/

/-- The `(window index, istate, jstate)` identity embedded in each result
returned by a dispatched unit. -/
def resultKey {α : Type} (r : ℕ × ℕ × ℕ × α) : ℕ × ℕ × ℕ :=
  (r.1, r.2.1, r.2.2.1)

/-- The payload (the CI tuple) of a returned result. -/
def resultPayload {α : Type} (r : ℕ × ℕ × ℕ × α) : α := r.2.2.2

/-- Model of `evol[iblock, istate, jstate] = ci_result`: write one result into its
output slot, addressed solely by the key embedded in the result. -/
def slotUpdate {α : Type} (f : ℕ × ℕ × ℕ → Option α) (r : ℕ × ℕ × ℕ × α) :
    ℕ × ℕ × ℕ → Option α :=
  fun k => if k = resultKey r then Option.some (resultPayload r) else f k

/-- The consumption loop `for future in self.work_manager.as_completed(futures)`
of `AvgTraceSubcommand.go` / `AvgMatrixSubcommand.go`, given the list of unit
results in completion order: each result is scattered into the output array
at the slot named by its own `(iblock, istate, jstate)` fields.  Unwritten
slots stay `none` (the zeroed array). -/
def scatterResults {α : Type} (results : List (ℕ × ℕ × ℕ × α)) :
    ℕ × ℕ × ℕ → Option α :=
  results.foldl slotUpdate (fun _ => Option.none)

/-- One step of the consumption loop with failures: `future.get_result()`
re-raises the exception captured by a failed unit, aborting the loop. -/
def consumeStep {ε α : Type} (acc : Except ε (ℕ × ℕ × ℕ → Option α))
    (fut : Except ε (ℕ × ℕ × ℕ × α)) : Except ε (ℕ × ℕ × ℕ → Option α) :=
  acc.bind (fun f => fut.map (fun r => slotUpdate f r))

/-- The same consumption loop as `scatterResults`, but over unit outcomes
that may be failures: modelled as a fold in the `Except` monad over the
futures' outcomes in completion order.  A raised exception aborts the loop
(and with it the whole analysis). -/
def consumeFutures {ε α : Type} (futures : List (Except ε (ℕ × ℕ × ℕ × α))) :
    Except ε (ℕ × ℕ × ℕ → Option α) :=
  futures.foldl consumeStep (Except.ok (fun _ => Option.none))

/-! ### `_eval_block_avg` (the `--type=block` error estimation) -/

/-- Model of `numpy.var` (population variance) of a list of rationals. -/
def listVar (l : List ℚ) : ℚ := listMean (l.map (fun x => (x - listMean l) ^ 2))

/-- Model of the python slice `xs[a:b]`. -/
def pySlice (xs : List ℚ) (a b : ℕ) : List ℚ := (xs.drop a).take (b - a)

/-- The `datalist` built by `_eval_block_avg` for one block size:
`numpy.mean(dataset[blocksize*i:blocksize*(i+1)])` for
`i in xrange(0, int(len(dataset)/blocksize))`. -/
def blockMeans (xs : List ℚ) (blocksize : ℕ) : List ℚ :=
  (List.range (xs.length / blocksize)).map
    (fun i => listMean (pySlice xs (blocksize * i) (blocksize * (i + 1))))

/-- One row of the structured arrays filled by `_eval_block_avg`
(the `ci_dtype` record). -/
structure BlockAvgRecord where
  iter_start : ℕ
  iter_stop : ℕ
  expected : ℚ
  ci_lbound : ℚ
  ci_ubound : ℚ
  stdev : ℝ
  variance : ℚ
  corr_len : ℕ

/-- A row of the `numpy.zeros(..., dtype=ci_dtype)` array that the loop of
`_eval_block_avg` never writes. -/
noncomputable def zeroBlockAvgRecord : BlockAvgRecord :=
  ⟨0, 0, 0, 0, 0, 0, 0, 0⟩

/-- The record written by `_eval_block_avg` at row `blocksize - 1`:
`expected = numpy.mean(datalist)`,
`stdev = numpy.std(datalist)/numpy.sqrt(int(len(dataset)/blocksize))`,
`variance = numpy.var(datalist)`, `ci_lbound = ci_ubound = 0`,
`corr_len = blocksize`. -/
noncomputable def blockAvgEntry (start stop : ℕ) (xs : List ℚ) (blocksize : ℕ) :
    BlockAvgRecord :=
  let dl := blockMeans xs blocksize
  { iter_start := start
    iter_stop := stop
    expected := listMean dl
    ci_lbound := 0
    ci_ubound := 0
    stdev := Real.sqrt ((listVar dl : ℚ) : ℝ) / Real.sqrt ((xs.length / blocksize : ℕ) : ℝ)
    variance := listVar dl
    corr_len := blocksize }

/-- The per-(dataset, istate, jstate) column of rows produced by
`_eval_block_avg`: arrays have `int(len(rates)/2)` rows; the loop
`for blocksize in xrange(1, int(len(dataset)/2) - 1)` fills row
`blocksize - 1` and leaves the remaining rows zeroed. -/
noncomputable def eval_block_avg (start stop : ℕ) (xs : List ℚ) :
    List BlockAvgRecord :=
  (List.range (xs.length / 2)).map
    (fun row =>
      if row + 1 < xs.length / 2 - 1 then blockAvgEntry start stop xs (row + 1)
      else zeroBlockAvgRecord)

/-! ### Output datasets and `stamp_mcbs_info` (attribute stamping) -/

/-- The names of the datasets written to the output file by the two
subcommands.  The `block_avg` names carry the interpolated `str(istate)` and
`str(stop)` pieces as data. -/
inductive DSName
  | avg_rates
  | avg_conditional_fluxes
  | avg_total_fluxes
  | state_labels
  | conditional_flux_evolution
  | target_flux_evolution
  | rate_evolution
  | block_avg_conditional_flux (istate stop : ℕ)
  | block_avg_target_flux (istate stop : ℕ)
  | block_avg_rate (stop : ℕ)
deriving DecidableEq

/-- Whether a dataset name is one of the whole-range average or evolution
result datasets (as opposed to the `state_labels` label list). -/
def isCIDataset : DSName → Bool
  | DSName.state_labels => false
  | _ => true

/-- One dataset written to the output file, together with whether
`stamp_mcbs_info` was applied to it (i.e. whether it carries the
`mcbs_alpha` / `mcbs_acalpha` / `mcbs_nsets` attributes). -/
structure Emission where
  name : DSName
  stamped : Bool
deriving DecidableEq

/-- The error-estimation method selected with the `--type` option. -/
inductive ErrEstType
  | bootstrap
  | block
deriving DecidableEq

/-- The `--evolution-mode` choice, including `'none'`. -/
inductive EvolChoice
  | cumulative
  | blocked
  | noEvolution
deriving DecidableEq

/-- The datasets emitted by `AvgTraceSubcommand.go`, in program order, with
their stamping status.  `istateLeak` is the (stale) value of the loop
variable `istate` interpolated into the `block_avg` dataset names, and
`windowStops` the `stop` values of the completed evolution blocks in
consumption order.  The whole-range averages and `state_labels` are always
written; the evolution datasets only when evolution is requested and
`step_iter` is nonzero; `stamp_mcbs_info` is applied to the three averages
and, in bootstrap mode only, to the three evolution datasets (the stamping
of the `block_avg` datasets is commented out in the source). -/
def traceEmissions (etype : ErrEstType) (emode : EvolChoice) (stepIter : ℕ)
    (istateLeak : ℕ) (windowStops : List ℕ) : List Emission :=
  [⟨DSName.avg_rates, true⟩, ⟨DSName.avg_conditional_fluxes, true⟩,
   ⟨DSName.avg_total_fluxes, true⟩, ⟨DSName.state_labels, false⟩]
  ++ (if emode = EvolChoice.noEvolution ∨ stepIter = 0 then []
      else match etype with
        | ErrEstType.bootstrap =>
            [⟨DSName.conditional_flux_evolution, true⟩,
             ⟨DSName.target_flux_evolution, true⟩,
             ⟨DSName.rate_evolution, true⟩]
        | ErrEstType.block =>
            windowStops.flatMap (fun stp =>
              [⟨DSName.block_avg_conditional_flux istateLeak stp, false⟩,
               ⟨DSName.block_avg_target_flux istateLeak stp, false⟩,
               ⟨DSName.block_avg_rate stp, false⟩]))

/-- The datasets emitted by `AvgMatrixSubcommand.go`: `avg_rates` always,
`rate_evolution` when evolution is requested and `step_iter` is nonzero;
both are stamped. -/
def matrixEmissions (emode : EvolChoice) (stepIter : ℕ) : List Emission :=
  [⟨DSName.avg_rates, true⟩]
  ++ (if emode = EvolChoice.noEvolution ∨ stepIter = 0 then []
      else [⟨DSName.rate_evolution, true⟩])

end WKinavg

namespace WemdStates

/-!
Model of `BasisState.states_from_file` and `BasisState.__init__` from
`src/wemd/states.py`.  Python strings are modelled as `List Char` so that all
operations are structurally computable.
-/

/-- Python exception kinds that the modelled code can raise. -/
inductive PyErr
  | typeError
  | valueError
  | indexError
deriving DecidableEq

/-- The keyword-parameter names appearing in the modelled calls
(python identifiers, as an enumeration). -/
inductive PyKw
  | label
  | probability
  | pcoord
  | auxref
  | state_id
  | data_ref
deriving DecidableEq

/-- The formal parameters accepted by `BasisState.__init__`
(`label, probability, pcoord=None, auxref=None, state_id=None`). -/
def basisStateParams : List PyKw :=
  [PyKw.label, PyKw.probability, PyKw.pcoord, PyKw.auxref, PyKw.state_id]

/-- The values passed around by the modelled code. -/
inductive PyVal
  | pynone
  | pystr (s : List Char)
  | pynum (q : ℚ)
deriving DecidableEq

/-- The `BasisState` object fields set by `__init__`. -/
structure BasisState where
  label : List Char
  probability : ℚ
  pcoord : PyVal
  auxref : PyVal
  state_id : PyVal
deriving DecidableEq

/-- Keyword-argument lookup with default. -/
def kwGet (kwargs : List (PyKw × PyVal)) (k : PyKw) (dflt : PyVal) : PyVal :=
  match kwargs.find? (fun kv => kv.1 = k) with
  | Option.some kv => kv.2
  | Option.none => dflt

/-- Calling `BasisState(**kwargs)`: python raises `TypeError` when a keyword
argument does not match any formal parameter of `__init__`; otherwise each
parameter takes the passed value or its default. -/
def basisState_call (kwargs : List (PyKw × PyVal)) : Except PyErr BasisState :=
  if kwargs.all (fun kv => basisStateParams.contains kv.1) then
    Except.ok
      { label := match kwGet kwargs PyKw.label PyVal.pynone with
          | PyVal.pystr s => s
          | _ => []
        probability := match kwGet kwargs PyKw.probability PyVal.pynone with
          | PyVal.pynum q => q
          | _ => 0
        pcoord := kwGet kwargs PyKw.pcoord PyVal.pynone
        auxref := kwGet kwargs PyKw.auxref PyVal.pynone
        state_id := kwGet kwargs PyKw.state_id PyVal.pynone }
  else Except.error PyErr.typeError

/-- Model of `line.partition('#')[0]`: the part of the line before any comment. -/
def stripComment (cs : List Char) : List Char :=
  cs.takeWhile (fun c => c ≠ '#')

/-- Model of python `str.strip()`: drop leading and trailing whitespace. -/
def pyStrip (cs : List Char) : List Char :=
  ((cs.dropWhile Char.isWhitespace).reverse.dropWhile Char.isWhitespace).reverse

/-- Helper for `str.split()`: accumulate maximal runs of non-whitespace. -/
def wsplitAux : List Char → List Char → List (List Char) → List (List Char)
  | [], cur, acc => if cur.isEmpty then acc else acc ++ [cur]
  | c :: rest, cur, acc =>
      if c.isWhitespace then
        if cur.isEmpty then wsplitAux rest [] acc
        else wsplitAux rest [] (acc ++ [cur])
      else wsplitAux rest (cur ++ [c]) acc

/-- Model of python `str.split()` with no arguments: split on whitespace runs,
producing no empty fields. -/
def wsplit (cs : List Char) : List (List Char) := wsplitAux cs [] []

/-- Numeric value of a digit run. -/
def natOfDigits (cs : List Char) : ℕ :=
  cs.foldl (fun a c => 10 * a + (c.toNat - 48)) 0

/-- Model of python `float()` restricted to plain decimal literals: optional
sign, an integer part and/or a fractional part separated by a single dot
(`"1"`, `"1.0"`, `".5"`, `"-2."`, ...).  Anything else is a `ValueError`
(`none`). -/
def pyFloat? (s : List Char) : Option ℚ :=
  let t := pyStrip s
  let sb : ℚ × List Char :=
    match t with
    | '-' :: rest => (-1, rest)
    | '+' :: rest => (1, rest)
    | _ => (1, t)
  let ip := sb.2.takeWhile (fun c => c ≠ '.')
  let rest := sb.2.dropWhile (fun c => c ≠ '.')
  match rest with
  | [] =>
      if ip.all Char.isDigit && !ip.isEmpty then
        Option.some (sb.1 * (natOfDigits ip : ℚ))
      else Option.none
  | _ :: frac =>
      if ip.all Char.isDigit && frac.all Char.isDigit &&
          !(ip.isEmpty && frac.isEmpty) && !(frac.contains '.') then
        Option.some
          (sb.1 * ((natOfDigits ip : ℚ) + (natOfDigits frac : ℚ) / (10 : ℚ) ^ frac.length))
      else Option.none

/-- Whether a line survives comment removal and stripping
(`if not line: continue`). -/
def isDataLine (line : List Char) : Bool :=
  !(pyStrip (stripComment line)).isEmpty

/-- Whether a line has a second whitespace-separated field that parses as a
float. -/
def secondFieldFloats (line : List Char) : Bool :=
  match wsplit (pyStrip (stripComment line)) with
  | _ :: p :: _ => (pyFloat? p).isSome
  | _ => false

/-- The body of the `for line in file(filename):` loop of
`BasisState.states_from_file` for one line: strip comments and whitespace,
skip empty lines, split into fields, parse the probability (a parse failure
raises `ValueError`, a missing field `IndexError`), then call
`cls(state_id=None, probability=probability, label=label, data_ref=data_ref)`. -/
def processLine (acc : List BasisState) (line : List Char) :
    Except PyErr (List BasisState) :=
  let stripped := pyStrip (stripComment line)
  if stripped.isEmpty then Except.ok acc
  else
    match wsplit stripped with
    | [] => Except.error PyErr.indexError
    | [_] => Except.error PyErr.indexError
    | label :: pstr :: restFields =>
        match pyFloat? pstr with
        | Option.none => Except.error PyErr.valueError
        | Option.some probability =>
            let data_ref : PyVal :=
              match restFields with
              | r :: _ => PyVal.pystr (pyStrip r)
              | [] => PyVal.pynone
            (basisState_call
              [(PyKw.state_id, PyVal.pynone), (PyKw.probability, PyVal.pynum probability),
               (PyKw.label, PyVal.pystr label), (PyKw.data_ref, data_ref)]).map
              (fun st => acc ++ [st])

/-- Model of `BasisState.states_from_file`, over the file's lines. -/
def states_from_file (lines : List (List Char)) : Except PyErr (List BasisState) :=
  lines.foldlM processLine []

end WemdStates

/-! ## Theorems -/

namespace WKinavg

/-! ### Arithmetic of the ceiling division `(x + s - 1) / s` -/

theorem ceil_div_pos {x s : ℕ} (hx : 0 < x) (hs : 0 < s) : 0 < (x + s - 1) / s := by
  have h : 1 * s ≤ x + s - 1 := by omega
  exact (Nat.le_div_iff_mul_le hs).mpr h

theorem mul_lt_of_lt_ceil_div {x s k : ℕ} (hs : 0 < s) (hk : k < (x + s - 1) / s) :
    s * k < x := by
  have h : k + 1 ≤ (x + s - 1) / s := hk
  rw [Nat.le_div_iff_mul_le hs] at h
  have : (k + 1) * s = s * k + s := by ring
  omega

theorem le_ceil_div_mul {x s : ℕ} (hs : 0 < s) : x ≤ ((x + s - 1) / s) * s := by
  by_contra hlt
  push_neg at hlt
  have h : ((x + s - 1) / s) + 1 ≤ (x + s - 1) / s := by
    rw [Nat.le_div_iff_mul_le hs]
    have : ((x + s - 1) / s + 1) * s = ((x + s - 1) / s) * s + s := by ring
    omega
  omega

/-! ### The block decomposition of `_calc_ci_block` -/

theorem nblocks_eq (a b s : ℕ) : nblocks a b s = (b - a + s - 1) / s := by
  simp [nblocks, blockStarts, arange]

theorem blockStarts_getD (a b s : ℕ) {i : ℕ} (hi : i < nblocks a b s) :
    (blockStarts a b s).getD i 0 = a + s * i := by
  have hlen : i < (blockStarts a b s).length := hi
  rw [List.getD_eq_getElem _ _ hlen]
  exact List.getElem_range' _ _

theorem arange_stops_eq (a b s : ℕ) :
    arange (a + s) (b + s) s = List.range' (a + s) (nblocks a b s) s := by
  unfold arange
  rw [nblocks_eq]
  have h : b + s - (a + s) + s - 1 = b - a + s - 1 := by omega
  rw [h]

theorem range'_stops_getD (a b s : ℕ) {j : ℕ} (hj : j < nblocks a b s) :
    (List.range' (a + s) (nblocks a b s) s).getD j 0 = a + s * (j + 1) := by
  rw [List.getD_eq_getElem _ _ (by simpa using hj)]
  rw [List.getElem_range']
  have h : s * (j + 1) = s * j + s := by ring
  omega

theorem arange_stops_getLast (a b s : ℕ) (hs : 0 < s) (hab : a < b) :
    (arange (a + s) (b + s) s).getLast? = Option.some (a + s * nblocks a b s) := by
  have hn : 0 < nblocks a b s := by
    rw [nblocks_eq]
    exact ceil_div_pos (by omega) hs
  rw [arange_stops_eq, List.getLast?_eq_getElem?,
    List.getElem?_eq_getElem (by simpa using by omega)]
  simp only [List.length_range']
  rw [List.getElem_range']
  simp only [Option.some.injEq]
  have h : s * nblocks a b s = s * (nblocks a b s - 1) + s := by
    have h1 : nblocks a b s = (nblocks a b s - 1) + 1 := by omega
    calc s * nblocks a b s = s * ((nblocks a b s - 1) + 1) := by rw [← h1]
    _ = s * (nblocks a b s - 1) + s := by ring
  omega

theorem blockStops_getD (a b s : ℕ) (hs : 0 < s) (hab : a < b) {i : ℕ}
    (hi : i < nblocks a b s) :
    (blockStops a b s).getD i 0 = min (a + s * (i + 1)) b := by
  have hn : 0 < nblocks a b s := lt_of_le_of_lt (Nat.zero_le _) hi
  have hlast := arange_stops_getLast a b s hs hab
  unfold blockStops clampLast
  rw [hlast]
  dsimp only
  rw [arange_stops_eq]
  simp only [List.length_range']
  by_cases hbx : b < a + s * nblocks a b s
  · rw [if_pos hbx]
    by_cases hilast : i = nblocks a b s - 1
    · subst hilast
      rw [List.getD_eq_getElem _ _ (by simp; omega)]
      rw [List.getElem_set_self (by simp; omega)]
      have h1 : nblocks a b s - 1 + 1 = nblocks a b s := by omega
      rw [h1, min_eq_right (by omega)]
    · rw [List.getD_eq_getElem _ _ (by simp; omega)]
      rw [List.getElem_set_ne (by omega) (by simpa using hi)]
      rw [List.getElem_range']
      have hlt : a + s * (i + 1) < b := by
        have h2 : s * (nblocks a b s - 1) < b - a := by
          exact mul_lt_of_lt_ceil_div hs (by rw [← nblocks_eq]; omega)
        have h3 : i + 1 ≤ nblocks a b s - 1 := by omega
        have h4 : s * (i + 1) ≤ s * (nblocks a b s - 1) :=
          Nat.mul_le_mul (Nat.le_refl s) h3
        omega
      rw [min_eq_left (le_of_lt hlt)]
      have h5 : s * (i + 1) = s * i + s := by ring
      omega
  · rw [if_neg hbx]
    rw [range'_stops_getD a b s hi]
    have hle : a + s * (i + 1) ≤ b := by
      have h1 : i + 1 ≤ nblocks a b s := by omega
      have h2 : s * (i + 1) ≤ s * nblocks a b s := Nat.mul_le_mul (Nat.le_refl s) h1
      omega
    rw [min_eq_left hle]

theorem blockIters_eq (a b s : ℕ) (hs : 0 < s) (hab : a < b) {i : ℕ}
    (hi : i < nblocks a b s) :
    blockIters a b s i
      = List.range' (a + s * i) (min (a + s * (i + 1)) b - (a + s * i)) := by
  unfold blockIters
  rw [blockStarts_getD a b s hi, blockStops_getD a b s hs hab hi]

theorem blockIters_length (a b s : ℕ) (hs : 0 < s) (hab : a < b) {i : ℕ}
    (hi : i < nblocks a b s) :
    (blockIters a b s i).length = min (a + s * (i + 1)) b - (a + s * i) := by
  rw [blockIters_eq a b s hs hab hi, List.length_range']

theorem flatMap_blocks_eq_range' (s : ℕ) (hs : 0 < s) :
    ∀ (n a b : ℕ), a < b → n = (b - a + s - 1) / s →
      (List.range n).flatMap
        (fun i => List.range' (a + s * i) (min (a + s * (i + 1)) b - (a + s * i)))
        = List.range' a (b - a) := by
  intro n
  induction n with
  | zero =>
      intro a b hab hn
      exact absurd hn.symm (Nat.ne_of_gt (ceil_div_pos (by omega) hs))
  | succ m ih =>
      intro a b hab hn
      by_cases hsb : b ≤ a + s
      · have hm0 : m = 0 := by
          have h2 : (b - a + s - 1) / s < 2 := by
            rw [Nat.div_lt_iff_lt_mul hs]
            omega
          omega
        subst hm0
        have h1 : List.range 1 = [0] := rfl
        rw [h1]
        simp only [List.flatMap_cons, List.flatMap_nil, List.append_nil,
          Nat.mul_zero, Nat.add_zero, Nat.zero_add, Nat.mul_one]
        have hmin : min (a + s) b = b := min_eq_right (by omega)
        rw [hmin]
      · push_neg at hsb
        have hm : m = (b - (a + s) + s - 1) / s := by
          have h1 : b - a + s - 1 = (b - a - 1) + s := by omega
          rw [h1, Nat.add_div_right _ hs] at hn
          have h2 : b - (a + s) + s - 1 = b - a - 1 := by omega
          rw [h2]
          omega
        rw [List.range_succ_eq_map]
        rw [List.flatMap_cons, List.flatMap_map]
        have hhead : List.range' (a + s * 0) (min (a + s * (0 + 1)) b - (a + s * 0))
            = List.range' a s := by
          simp only [Nat.mul_zero, Nat.add_zero, Nat.zero_add, Nat.mul_one]
          rw [min_eq_left (le_of_lt hsb)]
          congr 1
          omega
        have htail : (List.range m).flatMap
            (fun i => List.range' (a + s * Nat.succ i)
              (min (a + s * (Nat.succ i + 1)) b - (a + s * Nat.succ i)))
            = List.range' (a + s) (b - (a + s)) := by
          have hcongr : ∀ i ∈ List.range m,
              List.range' (a + s * Nat.succ i)
                (min (a + s * (Nat.succ i + 1)) b - (a + s * Nat.succ i))
              = List.range' ((a + s) + s * i)
                (min ((a + s) + s * (i + 1)) b - ((a + s) + s * i)) := by
            intro i _
            have e1 : a + s * Nat.succ i = (a + s) + s * i := by
              rw [Nat.mul_succ]; omega
            have e2 : a + s * (Nat.succ i + 1) = (a + s) + s * (i + 1) := by
              rw [Nat.succ_eq_add_one, Nat.mul_add, Nat.mul_add]
              ring
            rw [e1, e2]
          rw [List.flatMap_congr hcongr]
          exact ih (a + s) b hsb hm
        rw [hhead, htail]
        have happ := List.range'_append a s (b - (a + s)) 1
        simp only [Nat.mul_one, Nat.one_mul] at happ
        rw [happ]
        congr 1
        omega

theorem blockIters_length_of_dvd (a b s : ℕ) (hs : 0 < s) (hab : a < b)
    (hdvd : s ∣ (b - a)) {i : ℕ} (hi : i < nblocks a b s) :
    (blockIters a b s i).length = s := by
  obtain ⟨q, hq⟩ := hdvd
  have hq0 : 0 < q := by
    rcases Nat.eq_zero_or_pos q with h | h
    · subst h; omega
    · exact h
  have hnq : nblocks a b s = q := by
    rw [nblocks_eq, hq]
    have h1 : s * q + s - 1 = (s - 1) + s * q := by omega
    rw [h1, Nat.add_mul_div_left _ _ hs, Nat.div_eq_of_lt (by omega)]
    omega
  rw [blockIters_length a b s hs hab hi]
  rw [hnq] at hi
  have h2 : s * (i + 1) ≤ s * q := Nat.mul_le_mul (Nat.le_refl s) (by omega)
  have h3 : a + s * (i + 1) ≤ b := by omega
  rw [min_eq_left h3]
  have h4 : s * (i + 1) = s * i + s := by ring
  omega

theorem nblocks_mul_of_dvd (a b s : ℕ) (hs : 0 < s) (_hab : a < b)
    (hdvd : s ∣ (b - a)) : s * nblocks a b s = b - a := by
  obtain ⟨q, hq⟩ := hdvd
  have hnq : nblocks a b s = q := by
    rw [nblocks_eq, hq]
    have h1 : s * q + s - 1 = (s - 1) + s * q := by omega
    rw [h1, Nat.add_mul_div_left _ _ hs, Nat.div_eq_of_lt (by omega)]
    omega
  rw [hnq, hq]

/-- C1 (amended): in `_calc_ci_block` the window `[start_iter, stop_iter)` is
partitioned into contiguous blocks of length `stride = corr_len + 1`, the
final (possibly shorter) block retained; but each of the `n_sets` resamples
is built by drawing exactly `nblocks` blocks uniformly with replacement (not
until a target length is reached), so a resample averages over the sum of the
drawn block lengths, which equals `stop_iter - start_iter` whenever `stride`
divides the window length (and in general need not). -/
theorem c1_block_bootstrap_resampling :
    ∀ start stop ctime : ℕ, start < stop →
      ((List.range (nblocks start stop (ctime + 1))).flatMap
          (blockIters start stop (ctime + 1))
        = List.range' start (stop - start)) ∧
      (∀ i : ℕ, i < nblocks start stop (ctime + 1) →
        blockIters start stop (ctime + 1) i
          = List.range' (start + (ctime + 1) * i)
              (min (start + (ctime + 1) * (i + 1)) stop
                - (start + (ctime + 1) * i))) ∧
      (∀ draw : ℕ → ℕ,
        (resampleIters start stop (ctime + 1) draw).length
          = ((List.range (nblocks start stop (ctime + 1))).map
              (fun b => (blockIters start stop (ctime + 1) (draw b)).length)).sum) ∧
      (∀ draw : ℕ → ℕ,
        (∀ b, b < nblocks start stop (ctime + 1)
            → draw b < nblocks start stop (ctime + 1)) →
        (ctime + 1) ∣ (stop - start) →
        (resampleIters start stop (ctime + 1) draw).length = stop - start) := by
  intro start stop ctime hss
  have hs : 0 < ctime + 1 := Nat.succ_pos ctime
  refine ⟨?_, ?_, ?_, ?_⟩
  · rw [List.flatMap_congr
      (fun i hi => blockIters_eq start stop (ctime + 1) hs hss (List.mem_range.mp hi))]
    exact flatMap_blocks_eq_range' (ctime + 1) hs _ start stop hss
      (nblocks_eq start stop (ctime + 1))
  · intro i hi
    exact blockIters_eq _ _ _ hs hss hi
  · intro draw
    simp only [resampleIters, List.length_flatMap, Function.comp_def]
  · intro draw hdraw hdvd
    have hlen : ∀ b ∈ List.range (nblocks start stop (ctime + 1)),
        (blockIters start stop (ctime + 1) (draw b)).length = ctime + 1 := by
      intro b hb
      exact blockIters_length_of_dvd _ _ _ hs hss hdvd
        (hdraw b (List.mem_range.mp hb))
    unfold resampleIters
    rw [List.length_flatMap]
    simp only [Function.comp_def]
    rw [List.map_congr_left hlen]
    rw [List.map_const', List.sum_replicate, smul_eq_mul, List.length_range]
    rw [Nat.mul_comm]
    exact nblocks_mul_of_dvd start stop (ctime + 1) hs hss hdvd

/-- C1 counterexample: for the window `[0, 5)` with `corr_len = 1`
(`stride = 2`) there are three blocks `[0,2), [2,4), [4,5)`; the resample
that draws the final short block three times is a complete resample under the
code (exactly `nblocks = 3` draws, all in range) yet averages only `3`
iterations, not `stop_iter - start_iter = 5` — so resampling does not continue
"until the resample's total length reaches the window length". -/
theorem c1_counterexample :
    nblocks 0 5 2 = 3 ∧
    (∀ b : ℕ, (fun _ => 2 : ℕ → ℕ) b < 3) ∧
    (resampleIters 0 5 2 (fun _ => 2)).length = 3 ∧
    (resampleIters 0 5 2 (fun _ => 2)).length ≠ 5 - 0 := by
  refine ⟨by decide, fun _ => (by decide : (2:ℕ) < 3), by decide, by decide⟩

/-- Witness for C1: instantiation at the window `[0, 5)` with `corr_len = 1`. -/
theorem c1_witness :
    0 < 5 ∧
    ((List.range (nblocks 0 5 (1 + 1))).flatMap (blockIters 0 5 (1 + 1))
      = List.range' 0 (5 - 0)) :=
  ⟨by decide, (c1_block_bootstrap_resampling 0 5 1 (by decide)).1⟩

/-! ### C2: confidence bounds from the sorted resample statistics -/

theorem pyIndex_isSome_of_bounds {α : Type} (l : List α) (i : ℤ)
    (h0 : 0 ≤ i) (h : i < (l.length : ℤ)) : (pyIndex l i).isSome = true := by
  unfold pyIndex
  rw [if_neg (not_lt.mpr h0)]
  dsimp only
  rw [if_pos h0]
  rw [List.get?_eq_getElem?]
  rw [List.getElem?_eq_getElem (by omega)]
  rfl

/-- C2: whenever `_calc_ci_block` returns a record, the `expected` field is
the estimator applied to the original unresampled window data (independent of
the draws), and the reported bounds are the entries of the ascending-sorted
resample statistics at positions `lbi = floor(n_sets*alpha/2)` and
`ubi = ceil(n_sets*(1 - alpha/2))`. -/
theorem c2_expected_and_quantiles
    (fluxF popF : ℕ → ℚ) (rateOf : ℚ → ℚ → ℚ) (start stop ctime : ℕ)
    (alpha : ℚ) (nsets : ℕ) (draws : ℕ → ℕ → ℕ) (out : CIResult)
    (_halpha0 : 0 < alpha) (_halpha1 : alpha < 1)
    (h : calc_ci_block fluxF popF rateOf start stop ctime alpha nsets draws
          = Option.some out) :
    out.expected
        = rateOf (windowMean fluxF start stop) (windowMean popF start stop) ∧
    List.Sorted (· ≤ ·)
      (sortedSynthRates fluxF popF rateOf start stop ctime nsets draws) ∧
    (sortedSynthRates fluxF popF rateOf start stop ctime nsets draws).Perm
      (synthRates fluxF popF rateOf start stop (ctime + 1) nsets draws) ∧
    pyIndex (sortedSynthRates fluxF popF rateOf start stop ctime nsets draws)
      (lbiZ nsets alpha) = Option.some out.ci_lbound ∧
    pyIndex (sortedSynthRates fluxF popF rateOf start stop ctime nsets draws)
      (ubiZ nsets alpha) = Option.some out.ci_ubound ∧
    out.iter_start = start ∧ out.iter_stop = stop ∧ out.corr_len = ctime := by
  unfold calc_ci_block at h
  cases hl : pyIndex (sortedSynthRates fluxF popF rateOf start stop ctime nsets draws)
      (lbiZ nsets alpha) with
  | none => rw [hl] at h; exact absurd h (by simp)
  | some lb =>
      cases hu : pyIndex
          (sortedSynthRates fluxF popF rateOf start stop ctime nsets draws)
          (ubiZ nsets alpha) with
      | none => rw [hl, hu] at h; exact absurd h (by simp)
      | some ub =>
          rw [hl, hu] at h
          simp only [Option.some.injEq] at h
          subst h
          refine ⟨rfl, List.sorted_insertionSort _ _, List.perm_insertionSort _ _,
            rfl, rfl, rfl, rfl, rfl⟩

/-- Witness for C2: a concrete configuration (constant estimator `3`,
`alpha = 1/2`, `n_sets = 4`) on the window `[0, 2)` with `corr_len = 0`,
for which `_calc_ci_block` returns
`(0, 2, 3, 3, 3, 0)`. -/
theorem c2_witness :
    calc_ci_block (fun _ => 0) (fun _ => 1) (fun _ _ => (3 : ℚ)) 0 2 0 (1/2) 4
        (fun _ _ => 0) = Option.some ⟨0, 2, 3, 3, 3, 0⟩ ∧
    (⟨0, 2, 3, 3, 3, 0⟩ : CIResult).expected
        = (fun _ _ => (3 : ℚ)) (windowMean (fun _ => 0) 0 2)
            (windowMean (fun _ => 1) 0 2) := by
  have hsynth : synthRates (fun _ => 0) (fun _ => 1) (fun _ _ => (3 : ℚ)) 0 2 1 4
      (fun _ _ => 0) = [3, 3, 3, 3] := by
    simp [synthRates, synthRate, List.range_succ]
  have hsort : sortedSynthRates (fun _ => 0) (fun _ => 1) (fun _ _ => (3 : ℚ)) 0 2 0 4
      (fun _ _ => 0) = [3, 3, 3, 3] := by
    unfold sortedSynthRates
    rw [hsynth]
    norm_num [List.insertionSort, List.orderedInsert]
  have hlbi : lbiZ 4 (1/2) = 1 := by
    norm_num [lbiZ, Int.floor_eq_iff]
  have hubi : ubiZ 4 (1/2) = 3 := by
    norm_num [ubiZ, Int.ceil_eq_iff]
  have h : calc_ci_block (fun _ => 0) (fun _ => 1) (fun _ _ => (3 : ℚ)) 0 2 0 (1/2) 4
      (fun _ _ => 0) = Option.some ⟨0, 2, 3, 3, 3, 0⟩ := by
    unfold calc_ci_block
    rw [hsort, hlbi, hubi]
    norm_num [pyIndex]
    rfl
  exact ⟨h, (c2_expected_and_quantiles (fun _ => 0) (fun _ => 1) (fun _ _ => (3 : ℚ))
    0 2 0 (1/2) 4 (fun _ _ => 0) ⟨0, 2, 3, 3, 3, 0⟩
    (by norm_num) (by norm_num) h).1⟩

/-! ### C3: quantile index validity and the `nsets` policy -/

/-- C3 (amended): when `--nsets` is not supplied (or supplied as `0`),
`process_args` defaults `mcbs_nsets` to `get_bssize(alpha) = ceil(2/alpha)`,
and then for every `alpha` in `(0,1)` both quantile positions
`lbi = floor(n*alpha/2)` and `ubi = ceil(n*(1-alpha/2))` are valid in-range
indices into a length-`n` sorted array; a user-supplied nonzero `nsets` is
used unchanged, with no widening (see the counterexample). -/
theorem c3_defaulted_nsets_indices_valid (alpha : ℚ)
    (h0 : 0 < alpha) (h1 : alpha < 1) :
    0 ≤ lbiZ (resolve_nsets Option.none alpha) alpha ∧
    lbiZ (resolve_nsets Option.none alpha) alpha
        < (resolve_nsets Option.none alpha : ℤ) ∧
    0 ≤ ubiZ (resolve_nsets Option.none alpha) alpha ∧
    ubiZ (resolve_nsets Option.none alpha) alpha
        < (resolve_nsets Option.none alpha : ℤ) ∧
    ∀ l : List ℚ, l.length = resolve_nsets Option.none alpha →
      (pyIndex l (lbiZ (resolve_nsets Option.none alpha) alpha)).isSome = true ∧
      (pyIndex l (ubiZ (resolve_nsets Option.none alpha) alpha)).isSome = true := by
  have hres : resolve_nsets Option.none alpha = ⌈2 / alpha⌉₊ := rfl
  set n : ℕ := resolve_nsets Option.none alpha with hn
  have hge : (2 : ℚ) / alpha ≤ (n : ℚ) := by
    rw [hres]
    exact Nat.le_ceil _
  have hnpos : 0 < n := by
    rw [hres]
    rw [Nat.ceil_pos]
    positivity
  have hnq : (0 : ℚ) < (n : ℚ) := by exact_mod_cast hnpos
  have hmul : (2 : ℚ) ≤ (n : ℚ) * alpha := by
    have := mul_le_mul_of_nonneg_right hge (le_of_lt h0)
    rwa [div_mul_cancel₀ _ (ne_of_gt h0)] at this
  have hlb0 : 0 ≤ lbiZ n alpha := by
    rw [lbiZ, Int.floor_nonneg]
    positivity
  have hlbn : lbiZ n alpha < (n : ℤ) := by
    rw [lbiZ, Int.floor_lt]
    push_cast
    have halpha2 : alpha / 2 < 1 := by linarith
    calc (n : ℚ) * alpha / 2 = (n : ℚ) * (alpha / 2) := by ring
    _ < (n : ℚ) * 1 := by
        exact mul_lt_mul_of_pos_left halpha2 hnq
    _ = (n : ℚ) := by ring
  have hub0 : 0 ≤ ubiZ n alpha := by
    rw [ubiZ]
    apply Int.ceil_nonneg
    have : alpha / 2 < 1 := by linarith
    nlinarith
  have hubn : ubiZ n alpha < (n : ℤ) := by
    have hle : ubiZ n alpha ≤ (n : ℤ) - 1 := by
      rw [ubiZ, Int.ceil_le]
      push_cast
      nlinarith
    omega
  refine ⟨hlb0, hlbn, hub0, hubn, ?_⟩
  intro l hl
  constructor
  · exact pyIndex_isSome_of_bounds l _ hlb0 (by rw [hl]; exact_mod_cast hlbn)
  · exact pyIndex_isSome_of_bounds l _ hub0 (by rw [hl]; exact_mod_cast hubn)

/-- C3 counterexample: with `alpha = 1/20` (the default `0.05`) and a
user-supplied `--nsets 10`, `process_args` keeps `mcbs_nsets = 10` (no
widening), and the upper quantile position `ubi = ceil(10*(1 - 1/40)) = 10`
is out of range for the 10-element sorted resample array, so `synth_rates[ubi]`
raises `IndexError`. -/
theorem c3_counterexample :
    resolve_nsets (Option.some 10) (1/20) = 10 ∧
    ubiZ 10 (1/20) = 10 ∧
    pyIndex (List.replicate 10 (0 : ℚ)) (ubiZ 10 (1/20)) = Option.none := by
  have hubi : ubiZ 10 (1/20) = 10 := by
    norm_num [ubiZ, Int.ceil_eq_iff]
  refine ⟨rfl, hubi, ?_⟩
  rw [hubi]
  unfold pyIndex
  norm_num

/-- Witness for C3: instantiation at `alpha = 1/2`, where the defaulted
`n_sets` is `ceil(2/(1/2)) = 4` and both indices are in range. -/
theorem c3_witness :
    (0 : ℚ) < 1/2 ∧ (1/2 : ℚ) < 1 ∧
    (0 ≤ lbiZ (resolve_nsets Option.none (1/2)) (1/2) ∧
     lbiZ (resolve_nsets Option.none (1/2)) (1/2)
        < (resolve_nsets Option.none (1/2) : ℤ) ∧
     0 ≤ ubiZ (resolve_nsets Option.none (1/2)) (1/2) ∧
     ubiZ (resolve_nsets Option.none (1/2)) (1/2)
        < (resolve_nsets Option.none (1/2) : ℤ) ∧
     ∀ l : List ℚ, l.length = resolve_nsets Option.none (1/2) →
       (pyIndex l (lbiZ (resolve_nsets Option.none (1/2)) (1/2))).isSome = true ∧
       (pyIndex l (ubiZ (resolve_nsets Option.none (1/2)) (1/2))).isSome = true) :=
  ⟨by norm_num, by norm_num,
    c3_defaulted_nsets_indices_valid (1/2) (by norm_num) (by norm_num)⟩

/-! ### C4 and C5: the evolution window planner -/

theorem startPts_length (start stop step : ℕ) :
    (startPts start stop step).length = (stop - start + step - 1) / step := by
  simp [startPts]

theorem startPts_getD (start stop step : ℕ) {k : ℕ}
    (hk : k < (stop - start + step - 1) / step) :
    (startPts start stop step).getD k 0 = start + step * k := by
  unfold startPts
  rw [List.getD_eq_getElem _ _ (by simpa using hk)]
  exact List.getElem_range' _ _

theorem evolWindows_length (mode : EvolutionMode) (start stop step : ℕ) (frac : ℚ) :
    (evolWindows mode start stop step frac).length
      = (stop - start + step - 1) / step := by
  simp [evolWindows, startPts]

theorem evolWindows_getD (mode : EvolutionMode) (start stop step : ℕ) (frac : ℚ)
    {k : ℕ} (hk : k < (stop - start + step - 1) / step) :
    (evolWindows mode start stop step frac).getD k (0, 0)
      = windowOf mode start stop step frac (start + step * k) := by
  unfold evolWindows
  rw [List.getD_eq_getElem _ _ (by simp [startPts]; omega)]
  rw [List.getElem_map]
  congr 1
  rw [← startPts_getD start stop step hk]
  rw [List.getD_eq_getElem _ _ (by simp [startPts]; omega)]

/-- C5: in blocked mode the evolution windows are exactly
`[start_iter + k*step_iter, min(start_iter + (k+1)*step_iter, stop_iter))`
for `k = 0, 1, ...` until the range is exhausted, each with `stop > start`;
for `start = 0, stop = 100, step = 25` this yields
`[0,25), [25,50), [50,75), [75,100)`. -/
theorem c5_blocked_windows :
    (∀ start stop step : ℕ, start < stop → 0 < step →
      (evolWindows EvolutionMode.blocked start stop step 1).length
          = (stop - start + step - 1) / step ∧
      ∀ k : ℕ, k < (stop - start + step - 1) / step →
        (evolWindows EvolutionMode.blocked start stop step 1).getD k (0, 0)
            = (start + step * k, min (start + step * (k + 1)) stop) ∧
        start + step * k < min (start + step * (k + 1)) stop) ∧
    evolWindows EvolutionMode.blocked 0 100 25 1
        = [(0, 25), (25, 50), (50, 75), (75, 100)] := by
  constructor
  · intro start stop step hss hstep
    refine ⟨evolWindows_length _ _ _ _ _, ?_⟩
    intro k hk
    have hmul : step * k < stop - start := mul_lt_of_lt_ceil_div hstep hk
    have hgetd := evolWindows_getD EvolutionMode.blocked start stop step 1 hk
    constructor
    · rw [hgetd]
      unfold windowOf
      dsimp only
      congr 1
      have h1 : step * (k + 1) = step * k + step := by ring
      omega
    · have h1 : step * (k + 1) = step * k + step := by ring
      rw [lt_min_iff]
      omega
  · decide

/-- Witness for C5: instantiation at `start = 0, stop = 100, step = 25`,
window index `k = 2`. -/
theorem c5_witness :
    ((evolWindows EvolutionMode.blocked 0 100 25 1).getD 2 (0, 0)
        = (0 + 25 * 2, min (0 + 25 * (2 + 1)) 100) ∧
      0 + 25 * 2 < min (0 + 25 * (2 + 1)) 100) :=
  (c5_blocked_windows.1 0 100 25 (by decide) (by decide)).2 2 (by decide)

/-- C4: in cumulative mode, window `k`'s stop follows the blocked schedule
(`stop_k = min(start_iter + (k+1)*step_iter, stop_iter)`) and its start is
`max(start_iter, stop_k - floor(window_frac * (stop_k - start_iter)))`; for
`start = 0, stop = 100, step = 25, window_frac = 1/2` the final window
(`stop = 100`) starts at `50`. -/
theorem c4_cumulative_windows :
    (∀ (start stop step : ℕ) (frac : ℚ), start < stop → 0 < step →
        0 < frac → frac ≤ 1 →
      (evolWindows EvolutionMode.cumulative start stop step frac).length
          = (stop - start + step - 1) / step ∧
      ∀ k : ℕ, k < (stop - start + step - 1) / step →
        (evolWindows EvolutionMode.cumulative start stop step frac).getD k (0, 0)
            = (max start (min (start + step * (k + 1)) stop
                  - ⌊frac * ((min (start + step * (k + 1)) stop - start : ℕ) : ℚ)⌋₊),
               min (start + step * (k + 1)) stop)) ∧
    (evolWindows EvolutionMode.cumulative 0 100 25 (1/2)).getD 3 (0, 0)
        = (50, 100) := by
  constructor
  · intro start stop step frac hss hstep _hf0 _hf1
    refine ⟨evolWindows_length _ _ _ _ _, ?_⟩
    intro k hk
    rw [evolWindows_getD EvolutionMode.cumulative start stop step frac hk]
    unfold windowOf
    dsimp only
    have h1 : start + step * k + step = start + step * (k + 1) := by ring
    rw [h1]
  · have hsp : startPts 0 100 25 = [0, 25, 50, 75] := by decide
    show (List.map (windowOf EvolutionMode.cumulative 0 100 25 (1/2))
        (startPts 0 100 25)).getD 3 (0, 0) = (50, 100)
    rw [hsp]
    show windowOf EvolutionMode.cumulative 0 100 25 (1/2) 75 = (50, 100)
    unfold windowOf
    norm_num

/-- Witness for C4: instantiation at `start = 0, stop = 100, step = 25,
frac = 1/2`, window index `k = 3`. -/
theorem c4_witness :
    (evolWindows EvolutionMode.cumulative 0 100 25 (1/2)).getD 3 (0, 0)
        = (max 0 (min (0 + 25 * (3 + 1)) 100
              - ⌊(1/2 : ℚ) * ((min (0 + 25 * (3 + 1)) 100 - 0 : ℕ) : ℚ)⌋₊),
           min (0 + 25 * (3 + 1)) 100) :=
  (c4_cumulative_windows.1 0 100 25 (1/2) (by decide) (by decide)
    (by norm_num) (by norm_num)).2 3 (by decide)

/-! ### C6: order-independent result aggregation -/

theorem slotUpdate_comm {α : Type} (f : ℕ × ℕ × ℕ → Option α)
    (a b : ℕ × ℕ × ℕ × α) (h : resultKey a ≠ resultKey b) :
    slotUpdate (slotUpdate f a) b = slotUpdate (slotUpdate f b) a := by
  funext k
  by_cases hb : k = resultKey b
  · by_cases ha : k = resultKey a
    · exact absurd (ha ▸ hb) h
    · simp [slotUpdate, ha, hb, Ne.symm h]
  · by_cases ha : k = resultKey a
    · simp [slotUpdate, ha, hb, h]
    · simp [slotUpdate, ha, hb]

theorem foldl_slotUpdate_perm {α : Type} {l₁ l₂ : List (ℕ × ℕ × ℕ × α)}
    (hperm : l₁.Perm l₂) :
    (l₁.map resultKey).Nodup →
    ∀ init : ℕ × ℕ × ℕ → Option α,
      l₁.foldl slotUpdate init = l₂.foldl slotUpdate init := by
  induction hperm with
  | nil => intro _ _; rfl
  | cons x h ih =>
      intro hnd init
      simp only [List.map_cons, List.nodup_cons] at hnd
      simp only [List.foldl_cons]
      exact ih hnd.2 (slotUpdate init x)
  | swap x y l =>
      intro hnd init
      simp only [List.map_cons, List.nodup_cons, List.mem_cons] at hnd
      have hxy : resultKey y ≠ resultKey x := fun h => hnd.1 (Or.inl h)
      simp only [List.foldl_cons]
      rw [slotUpdate_comm init y x hxy]
  | trans h₁ h₂ ih₁ ih₂ =>
      intro hnd init
      rw [ih₁ hnd init]
      have hnd₂ := ((h₁.map resultKey).nodup_iff).mp hnd
      rw [ih₂ hnd₂ init]

theorem foldl_slotUpdate_notmem {α : Type} (l : List (ℕ × ℕ × ℕ × α))
    (k : ℕ × ℕ × ℕ) (hk : k ∉ l.map resultKey) :
    ∀ init : ℕ × ℕ × ℕ → Option α, (l.foldl slotUpdate init) k = init k := by
  induction l with
  | nil => intro init; rfl
  | cons a l ih =>
      intro init
      simp only [List.map_cons, List.mem_cons] at hk
      push_neg at hk
      rw [List.foldl_cons, ih hk.2]
      simp [slotUpdate, hk.1]

theorem foldl_slotUpdate_lookup {α : Type} (l : List (ℕ × ℕ × ℕ × α)) :
    ∀ (r : ℕ × ℕ × ℕ × α), r ∈ l → (l.map resultKey).Nodup →
    ∀ init : ℕ × ℕ × ℕ → Option α,
      (l.foldl slotUpdate init) (resultKey r) = Option.some (resultPayload r) := by
  induction l with
  | nil => intro r hr; cases hr
  | cons a l ih =>
      intro r hr hnd init
      simp only [List.map_cons, List.nodup_cons] at hnd
      rcases List.mem_cons.mp hr with rfl | hr'
      · rw [List.foldl_cons, foldl_slotUpdate_notmem l _ hnd.1]
        simp [slotUpdate]
      · rw [List.foldl_cons]
        exact ih r hr' hnd.2 (slotUpdate init a)

/-- C6: consuming the unit results in any completion order yields output
arrays element-wise identical to consuming them in submission order, because
each result is scattered to the output slot named by the
`(window_index, istate, jstate)` key embedded in the result payload, never by
submission position. -/
theorem c6_as_completed_order_independent {α : Type}
    (l₁ l₂ : List (ℕ × ℕ × ℕ × α)) (hperm : l₁.Perm l₂)
    (hnodup : (l₁.map resultKey).Nodup) :
    scatterResults l₁ = scatterResults l₂ ∧
    ∀ r ∈ l₁, scatterResults l₁ (resultKey r) = Option.some (resultPayload r) := by
  constructor
  · exact foldl_slotUpdate_perm hperm hnodup _
  · intro r hr
    exact foldl_slotUpdate_lookup l₁ r hr hnodup _

/-- Witness for C6: two results consumed in either order produce the same
output array, with each result in its own slot. -/
theorem c6_witness :
    ((([(0, 0, 1, 10), (1, 1, 0, 20)] : List (ℕ × ℕ × ℕ × ℕ)).Perm
        [(1, 1, 0, 20), (0, 0, 1, 10)]) ∧
      (([(0, 0, 1, 10), (1, 1, 0, 20)] : List (ℕ × ℕ × ℕ × ℕ)).map
        resultKey).Nodup) ∧
    (scatterResults [(0, 0, 1, 10), (1, 1, 0, 20)]
        = scatterResults [(1, 1, 0, 20), (0, 0, 1, 10)] ∧
      ∀ r ∈ ([(0, 0, 1, 10), (1, 1, 0, 20)] : List (ℕ × ℕ × ℕ × ℕ)),
        scatterResults [(0, 0, 1, 10), (1, 1, 0, 20)] (resultKey r)
          = Option.some (resultPayload r)) :=
  ⟨⟨by decide, by decide⟩,
    c6_as_completed_order_independent _ _ (by decide) (by decide)⟩

/-! ### C7: failure handling in the consumption loop -/

theorem consumeStep_error_absorb {ε α : Type}
    (l : List (Except ε (ℕ × ℕ × ℕ × α))) (e : ε) :
    l.foldl consumeStep (Except.error e) = Except.error e := by
  induction l with
  | nil => rfl
  | cons a l ih =>
      rw [List.foldl_cons]
      have h : consumeStep (Except.error e) a = (Except.error e : Except ε _) := rfl
      rw [h, ih]

theorem foldl_consumeStep_error {ε α : Type}
    (l : List (Except ε (ℕ × ℕ × ℕ × α))) (e : ε) :
    Except.error e ∈ l →
    ∀ init, ∃ e2, l.foldl consumeStep init = Except.error e2 := by
  induction l with
  | nil => intro h; cases h
  | cons a l ih =>
      intro h init
      rcases List.mem_cons.mp h with rfl | h'
      · cases init with
        | error e0 =>
            exact ⟨e0, by rw [List.foldl_cons]; exact consumeStep_error_absorb l e0⟩
        | ok f =>
            exact ⟨e, by rw [List.foldl_cons]; exact consumeStep_error_absorb l e⟩
      · rw [List.foldl_cons]
        exact ih h' (consumeStep init a)

/-- C7 (amended): the consumption loops contain no per-slot failure handling:
`future.get_result()` re-raises a unit's failure, so a single failed unit
aborts the aggregation with that exception — no failure marker is recorded,
the remaining slots are not filled, and no count of failed slots is reported. -/
theorem c7_unit_failure_aborts_run {ε α : Type}
    (l : List (Except ε (ℕ × ℕ × ℕ × α))) (e : ε)
    (h : Except.error e ∈ l) :
    ∃ e2, consumeFutures l = Except.error e2 :=
  foldl_consumeStep_error l e h _

/-- C7 counterexample: with three dispatched units of which the second fails,
the consumption loop yields the raised error — no output array with a
per-slot failure marker exists, and the third (successful) result is
discarded rather than routed to its slot. -/
theorem c7_counterexample :
    consumeFutures
        ([Except.ok (0, 0, 1, 10), Except.error (), Except.ok (1, 0, 1, 20)]
          : List (Except Unit (ℕ × ℕ × ℕ × ℕ)))
      = Except.error () ∧
    (consumeFutures
        ([Except.ok (0, 0, 1, 10), Except.error (), Except.ok (1, 0, 1, 20)]
          : List (Except Unit (ℕ × ℕ × ℕ × ℕ)))).isOk = false :=
  ⟨rfl, rfl⟩

/-- Witness for C7: a single failed unit aborts the (singleton) consumption. -/
theorem c7_witness :
    ∃ e2, consumeFutures
        ([Except.error ()] : List (Except Unit (ℕ × ℕ × ℕ × ℕ)))
      = Except.error e2 :=
  c7_unit_failure_aborts_run _ () (List.mem_singleton.mpr rfl)

/-! ### C8: the block-averaging error estimation mode -/

/-- C8: every record produced by `_eval_block_avg` has
`ci_lbound = ci_ubound = 0`, and the rows written by the loop (block sizes
`1 ≤ blocksize < len/2 - 1`) have `expected`, `stdev`, `variance` and
`corr_len` populated from the per-block means of the dataset slice. -/
theorem c8_block_avg_records (start stop : ℕ) (xs : List ℚ) :
    (∀ r ∈ eval_block_avg start stop xs, r.ci_lbound = 0 ∧ r.ci_ubound = 0) ∧
    (∀ row : ℕ, row + 1 < xs.length / 2 - 1 →
      (eval_block_avg start stop xs).getD row zeroBlockAvgRecord
        = blockAvgEntry start stop xs (row + 1)) ∧
    (∀ blocksize : ℕ,
      (blockAvgEntry start stop xs blocksize).ci_lbound = 0 ∧
      (blockAvgEntry start stop xs blocksize).ci_ubound = 0 ∧
      (blockAvgEntry start stop xs blocksize).expected
          = listMean (blockMeans xs blocksize) ∧
      (blockAvgEntry start stop xs blocksize).variance
          = listVar (blockMeans xs blocksize) ∧
      (blockAvgEntry start stop xs blocksize).stdev
          = Real.sqrt ((listVar (blockMeans xs blocksize) : ℚ) : ℝ)
              / Real.sqrt ((xs.length / blocksize : ℕ) : ℝ) ∧
      (blockAvgEntry start stop xs blocksize).corr_len = blocksize ∧
      (blockAvgEntry start stop xs blocksize).iter_start = start ∧
      (blockAvgEntry start stop xs blocksize).iter_stop = stop) := by
  refine ⟨?_, ?_, ?_⟩
  · intro r hr
    unfold eval_block_avg at hr
    obtain ⟨row, _, hrow⟩ := List.mem_map.mp hr
    by_cases hc : row + 1 < xs.length / 2 - 1
    · rw [if_pos hc] at hrow
      rw [← hrow]
      exact ⟨rfl, rfl⟩
    · rw [if_neg hc] at hrow
      rw [← hrow]
      exact ⟨rfl, rfl⟩
  · intro row hrow
    have hlt : row < xs.length / 2 := by omega
    unfold eval_block_avg
    rw [List.getD_eq_getElem _ _ (by simpa using hlt)]
    rw [List.getElem_map]
    simp only [List.getElem_range]
    rw [if_pos hrow]
  · intro blocksize
    exact ⟨rfl, rfl, rfl, rfl, rfl, rfl, rfl, rfl⟩

/-- Witness for C8: a ten-element dataset slice, with row `0`
(block size `1`) written by the loop. -/
theorem c8_witness :
    (∀ r ∈ eval_block_avg 0 10 [1, 2, 3, 4, 5, 6, 7, 8, 9, 10],
        r.ci_lbound = 0 ∧ r.ci_ubound = 0) ∧
    0 + 1 < ([1, 2, 3, 4, 5, 6, 7, 8, 9, 10] : List ℚ).length / 2 - 1 ∧
    (eval_block_avg 0 10 [1, 2, 3, 4, 5, 6, 7, 8, 9, 10]).getD 0 zeroBlockAvgRecord
        = blockAvgEntry 0 10 [1, 2, 3, 4, 5, 6, 7, 8, 9, 10] (0 + 1) :=
  ⟨(c8_block_avg_records 0 10 _).1, by decide,
    (c8_block_avg_records 0 10 _).2.1 0 (by decide)⟩

/-! ### C9: `mcbs` attribute stamping of the output datasets -/

/-- C9 (amended): in bootstrap mode every whole-range average and evolution
dataset emitted by the trace subcommand is stamped with the `mcbs_alpha`,
`mcbs_acalpha` and `mcbs_nsets` attributes, and the matrix subcommand stamps
both of its datasets; but in block mode the per-window `block_avg` evolution
datasets are emitted unstamped (the stamping calls are commented out). -/
theorem c9_mcbs_stamping :
    (∀ (emode : EvolChoice) (stepIter istateLeak : ℕ) (ws : List ℕ),
      ∀ em ∈ traceEmissions ErrEstType.bootstrap emode stepIter istateLeak ws,
        isCIDataset em.name = true → em.stamped = true) ∧
    (∀ (emode : EvolChoice) (stepIter : ℕ),
      ∀ em ∈ matrixEmissions emode stepIter, em.stamped = true) ∧
    (∀ (emode : EvolChoice) (stepIter istateLeak : ℕ) (ws : List ℕ) (stp : ℕ),
      stp ∈ ws → ¬(emode = EvolChoice.noEvolution ∨ stepIter = 0) →
      Emission.mk (DSName.block_avg_rate stp) false
        ∈ traceEmissions ErrEstType.block emode stepIter istateLeak ws) := by
  refine ⟨?_, ?_, ?_⟩
  · intro emode stepIter istateLeak ws em hem hci
    unfold traceEmissions at hem
    rcases List.mem_append.mp hem with h4 | hevol
    · simp only [List.mem_cons, List.not_mem_nil, or_false] at h4
      rcases h4 with h | h | h | h
      · rw [h]
      · rw [h]
      · rw [h]
      · rw [h] at hci
        exact absurd hci (by decide)
    · by_cases hc : emode = EvolChoice.noEvolution ∨ stepIter = 0
      · rw [if_pos hc] at hevol
        cases hevol
      · rw [if_neg hc] at hevol
        simp only [List.mem_cons, List.not_mem_nil, or_false] at hevol
        rcases hevol with h | h | h
        · rw [h]
        · rw [h]
        · rw [h]
  · intro emode stepIter em hem
    unfold matrixEmissions at hem
    rcases List.mem_append.mp hem with h1 | hevol
    · simp only [List.mem_cons, List.not_mem_nil, or_false] at h1
      rw [h1]
    · by_cases hc : emode = EvolChoice.noEvolution ∨ stepIter = 0
      · rw [if_pos hc] at hevol
        cases hevol
      · rw [if_neg hc] at hevol
        simp only [List.mem_cons, List.not_mem_nil, or_false] at hevol
        rw [hevol]
  · intro emode stepIter istateLeak ws stp hstp hc
    unfold traceEmissions
    refine List.mem_append.mpr (Or.inr ?_)
    rw [if_neg hc]
    exact List.mem_flatMap.mpr ⟨stp, hstp, by simp⟩

/-- C9 counterexample: in block mode with evolution enabled, the
`block_avg rate final 100` dataset is emitted without the `mcbs` attributes. -/
theorem c9_counterexample :
    Emission.mk (DSName.block_avg_rate 100) false
        ∈ traceEmissions ErrEstType.block EvolChoice.blocked 25 1 [100] ∧
    isCIDataset (DSName.block_avg_rate 100) = true := by
  constructor
  · decide
  · decide

/-- Witness for C9: instantiation at cumulative evolution with one window. -/
theorem c9_witness :
    (∀ em ∈ traceEmissions ErrEstType.bootstrap EvolChoice.cumulative 25 0 [50],
        isCIDataset em.name = true → em.stamped = true) ∧
    Emission.mk (DSName.block_avg_rate 50) false
        ∈ traceEmissions ErrEstType.block EvolChoice.cumulative 25 0 [50] :=
  ⟨c9_mcbs_stamping.1 EvolChoice.cumulative 25 0 [50],
    c9_mcbs_stamping.2.2 EvolChoice.cumulative 25 0 [50] 50 (by decide) (by decide)⟩

end WKinavg

namespace WemdStates

/-! ### C10: `BasisState.states_from_file` always raises on data lines -/

theorem processLine_ok_of_not_dataline (line : List Char)
    (h : isDataLine line = false) (acc : List BasisState) :
    processLine acc line = Except.ok acc := by
  unfold processLine
  rw [if_pos]
  unfold isDataLine at h
  simpa using h

theorem processLine_error_of_dataline (line : List Char)
    (h : isDataLine line = true) (acc : List BasisState) :
    ∃ e, processLine acc line = Except.error e := by
  unfold processLine
  rw [if_neg (by
    unfold isDataLine at h
    simp only [Bool.not_eq_true'] at h
    simp [h])]
  cases hw : wsplit (pyStrip (stripComment line)) with
  | nil => exact ⟨PyErr.indexError, rfl⟩
  | cons label rest =>
      cases rest with
      | nil => exact ⟨PyErr.indexError, rfl⟩
      | cons pstr restFields =>
          dsimp only
          cases hp : pyFloat? pstr with
          | none => exact ⟨PyErr.valueError, rfl⟩
          | some probability => exact ⟨PyErr.typeError, rfl⟩

theorem foldlM_processLine_error (lines : List (List Char)) :
    (∃ l ∈ lines, isDataLine l = true) →
    ∀ acc, ∃ e, lines.foldlM processLine acc = Except.error e := by
  induction lines with
  | nil => intro h; simp at h
  | cons a ls ih =>
      intro h acc
      rw [List.foldlM_cons]
      by_cases ha : isDataLine a = true
      · obtain ⟨e, he⟩ := processLine_error_of_dataline a ha acc
        rw [he]
        exact ⟨e, rfl⟩
      · rw [processLine_ok_of_not_dataline a (by simpa using ha) acc]
        have h' : ∃ l ∈ ls, isDataLine l = true := by
          rcases h with ⟨l, hl, hd⟩
          rcases List.mem_cons.mp hl with rfl | hl'
          · exact absurd hd ha
          · exact ⟨l, hl', hd⟩
        exact ih h' acc

theorem foldlM_processLine_ok (lines : List (List Char)) :
    (∀ l ∈ lines, isDataLine l = false) →
    ∀ acc, lines.foldlM processLine acc = Except.ok acc := by
  induction lines with
  | nil => intro _ acc; rfl
  | cons a ls ih =>
      intro h acc
      rw [List.foldlM_cons]
      rw [processLine_ok_of_not_dataline a (h a (List.mem_cons_self a ls)) acc]
      exact ih (fun l hl => h l (List.mem_cons_of_mem a hl)) acc

/-- C10: `BasisState.states_from_file` raises an exception for any file with
at least one data line whose second whitespace-separated field parses as a
float — once the probability parses, the call
`cls(state_id=..., probability=..., label=..., data_ref=...)` raises
`TypeError` because `BasisState.__init__` has no `data_ref` parameter (its
parameter is `auxref`); only a file with no data lines returns, and it
returns the empty list. -/
theorem c10_states_from_file_raises :
    (∀ lines : List (List Char),
      (∃ l ∈ lines, isDataLine l = true ∧ secondFieldFloats l = true) →
      ∃ e, states_from_file lines = Except.error e) ∧
    (∀ lines : List (List Char),
      (∀ l ∈ lines, isDataLine l = false) →
      states_from_file lines = Except.ok []) := by
  constructor
  · intro lines h
    rcases h with ⟨l, hl, hd, _⟩
    exact foldlM_processLine_error lines ⟨l, hl, hd⟩ []
  · intro lines h
    exact foldlM_processLine_ok lines h []

/-- Witness for C10: the single-line file `unbound 1.0` (whose second field
parses as a float) makes `states_from_file` raise, and the empty file
returns the empty list. -/
theorem c10_witness :
    (∃ l ∈ [['u', 'n', 'b', 'o', 'u', 'n', 'd', ' ', '1', '.', '0']],
        isDataLine l = true ∧ secondFieldFloats l = true) ∧
    (∃ e, states_from_file [['u', 'n', 'b', 'o', 'u', 'n', 'd', ' ', '1', '.', '0']]
        = Except.error e) ∧
    states_from_file [] = Except.ok [] :=
  ⟨by decide, c10_states_from_file_raises.1 _ (by decide),
    c10_states_from_file_raises.2 [] (by simp)⟩

end WemdStates
